import Mathlib

/-!
Shallow embedding of `src/object_analytics_node/src/tracker/tracking_manager.cpp`
(class `tracker::TrackingManager`) and verification of the specification's claims
about it.

Modelling conventions:
* C `float`/`double` values are modelled as `ℚ`; the float `INFINITY` sentinel used
  in matrices is modelled as `none` in `Option ℚ`.
* C integers (`int32_t`, `timespec` fields) are modelled as `Int`; the one place
  where 32-bit overflow matters (the static `tracking_cnt` counter incremented by
  `addTracking`) wraps through `wrap32`, two's-complement semantics.
* External collaborators that are not part of this translation unit (the `Tracking`
  class behaviour, `cv::Mahalanobis`, covariance inversion, `sqrt`, and the Munkres
  solver from `munkres.h`) are taken as parameters of the embedded functions; the
  manager-visible data of a `Tracking` object is a plain structure.
* Recursion that C realises with unbounded loops/recursion carries a fuel
  parameter; running out of fuel (or hitting float-`INFINITY` label arithmetic that
  `ℚ` cannot represent) yields `none`, and every theorem below is about runs where
  this never happens.
-/

namespace tracker

/-- `struct timespec` stamp: seconds and nanoseconds fields, both C `long`. -/
structure Timespec where
  tv_sec : Int
  tv_nsec : Int
deriving DecidableEq, Repr, Inhabited

/-- `sFrame`: the manager only reads the frame's `stamp`; the sensor payload is
opaque to every function in this file and is omitted. -/
structure sFrame where
  stamp : Timespec
deriving DecidableEq, Repr, Inhabited

/-- `cv::Rect2d`: axis-aligned rectangle with `ℚ` coordinates. -/
structure Rect where
  x : ℚ
  y : ℚ
  width : ℚ
  height : ℚ
deriving DecidableEq, Repr, Inhabited

/-- `Object` (a detection): class label `Category_`, confidence, bounding box. -/
structure Object where
  Category_ : String
  Confidence_ : ℚ
  BoundBox_ : Rect
deriving DecidableEq, Repr, Inhabited

/-- The manager-visible data of one `Tracking` object (external collaborator,
see the contract in §6 of the spec): id (`getTrackingId`), label (`getObjName`),
probability, tracked rectangle (`getTrackedRect`), algorithm tag (`setAlgo`) and
the active flag (`isActive`). Internal motion state is opaque to the manager. -/
structure Tracking where
  trackingId : Int
  objName : String
  probability : ℚ
  rect : Rect
  algo : String
  active : Bool
deriving DecidableEq, Repr, Inhabited

/-- `tracker::Traj`: predicted rectangle `rect_` plus a covariance matrix
`covar_` whose representation is opaque to the manager (type parameter). -/
structure Traj (Cov : Type) where
  rect_ : Rect
  covar_ : Cov

/-- `TrackingManager` state: configured algorithm tag, `initialized_` flag, the
admission-window capacity `qFrameNumLimit_` (5 in the constructor), the window
`validFrames_`, the live track sequence `trackings_`, and the static counter
`tracking_cnt` (global in C; carried in the state here, which is faithful for a
single manager instance). -/
structure TMState where
  algo_ : String
  initialized_ : Bool
  qFrameNumLimit_ : Nat
  validFrames_ : List Timespec
  trackings_ : List Tracking
  tracking_cnt : Int
deriving DecidableEq, Repr, Inhabited

/-- The `TrackingManager` constructor: `algo_ = "MEDIAN_FLOW"`,
`initialized_ = false`, `qFrameNumLimit_ = 5`; the static `tracking_cnt`
starts at 0. -/
def TrackingManagerCtor : TMState :=
  { algo_ := "MEDIAN_FLOW", initialized_ := false, qFrameNumLimit_ := 5,
    validFrames_ := [], trackings_ := [], tracking_cnt := 0 }

/-- `kMatchThreshold = 0.3` (written with `mkRat` so that the constant reduces
inside kernel evaluations; `kMatchThreshold_eq` below checks it is 3/10). -/
def kMatchThreshold : ℚ := mkRat 3 10

/-- Two's-complement wrap of an `int32_t` increment (`tracking_cnt++` can
overflow; the source only logs the overflow). -/
def wrap32 (z : Int) : Int := (z + 2 ^ 31) % 2 ^ 32 - 2 ^ 31

/-- C `double`→`int` conversion (used by the `cv::Point2i` constructor calls in
`getTracking`): truncation toward zero. -/
def qtrunc (q : ℚ) : Int := if 0 ≤ q then ⌊q⌋ else ⌈q⌉

/-- Minimum of two float values where `none` stands for `INFINITY`. -/
def minOpt : Option ℚ → Option ℚ → Option ℚ
  | none, b => b
  | some a, none => some a
  | some a, some b => some (min a b)

/-- `TrackingManager::isDetFrameValid`: linear scan of `validFrames_` for an
exact (seconds, nanoseconds) match. -/
def isDetFrameValid (validFrames : List Timespec) (stamp : Timespec) : Bool :=
  validFrames.any fun stamp_h =>
    stamp_h.tv_sec == stamp.tv_sec && stamp_h.tv_nsec == stamp.tv_nsec

/-- `TrackingManager::isTrackFrameValid`: true on an empty window; otherwise the
three comparisons of the source against `validFrames_.back()`, which compare the
`tv_nsec` fields only (the final `latest.tv_nsec >= stamp.tv_nsec` test is
reached exactly when the nanosecond fields are equal, and rejects). -/
def isTrackFrameValid (validFrames : List Timespec) (stamp : Timespec) : Bool :=
  match validFrames.getLast? with
  | none => true
  | some latest =>
    if latest.tv_nsec > stamp.tv_nsec then false
    else if latest.tv_nsec < stamp.tv_nsec then true
    else if latest.tv_nsec ≥ stamp.tv_nsec then false
    else true

/-- `TrackingManager::track`: no-op unless initialized; admits a valid stamp into
`validFrames_` (evicting the front element when the size exceeds
`qFrameNumLimit_`) and then lets every live `Tracking` update itself for the
frame. `updateTracker` belongs to the external `Tracking` class and is passed in
as `updateT`; a failed update only logs (the erase is commented out in the
source), so the sequence of tracks is unchanged either way. -/
def track (updateT : Tracking → sFrame → Tracking) (s : TMState) (frame : sFrame) : TMState :=
  if s.initialized_ = false then s
  else if isTrackFrameValid s.validFrames_ frame.stamp then
    let vf0 := s.validFrames_ ++ [frame.stamp]
    let vf := if vf0.length > s.qFrameNumLimit_ then vf0.tail else vf0
    { s with validFrames_ := vf,
             trackings_ := s.trackings_.map (fun t => updateT t frame) }
  else s

/-- Rectangle centre as computed in `calcTrackDetMahaDistance`
(`x + width/2`, `y + height/2`). -/
def rectCentra (r : Rect) : ℚ × ℚ := (r.x + r.width / 2, r.y + r.height / 2)

/-- `TrackingManager::calcTrackDetMahaDistance`: empty matrix when either list is
empty; otherwise a (tracks × dets) matrix initialised to `INFINITY` (`none`).
A row whose track has no trajectory for `stamp` stays at the sentinel; otherwise
each cell gets `pow(m_dist, 2)` when the raw Mahalanobis distance `m_dist`
between the two rectangle centres is not above `2.0`, else it stays at the
sentinel. `mahal` (for `cv::Mahalanobis`) and `covInv` (for `covar.inv()`) are
the external linear-algebra primitives; `getTraj` is the `Tracking::getTraj`
collaborator. The `prob` local of the source is computed and never used, and is
omitted. -/
def calcTrackDetMahaDistance {Cov : Type}
    (getTraj : Tracking → Timespec → Option (Traj Cov))
    (mahal : ℚ × ℚ → ℚ × ℚ → Cov → ℚ) (covInv : Cov → Cov)
    (dets : List Object) (tracks : List Tracking) (stamp : Timespec) :
    List (List (Option ℚ)) :=
  if dets.length ≤ 0 ∨ tracks.length ≤ 0 then []
  else
    tracks.map fun tracker =>
      match getTraj tracker stamp with
      | none => List.replicate dets.length (none : Option ℚ)
      | some traj =>
        let t_centra := rectCentra traj.rect_
        let covar := traj.covar_
        dets.map fun det =>
          let d_centra := rectCentra det.BoundBox_
          let m_dist := mahal t_centra d_centra (covInv covar)
          if m_dist > 2 then (none : Option ℚ) else some (m_dist ^ 2)

/-- `TrackingManager::addTracking`: builds a `Tracking` with the next counter
value as id, the requested name/probability/rect, tags it with the manager's
algorithm (`setAlgo(algo_)`), appends it to `trackings_`, and post-increments the
(32-bit, wrapping) counter. New tracks start active (spec §3 lifecycle). -/
def addTracking (s : TMState) (name : String) (probability : ℚ) (rect : Rect) :
    Tracking × TMState :=
  let t : Tracking :=
    { trackingId := s.tracking_cnt, objName := name, probability := probability,
      rect := rect, algo := s.algo_, active := true }
  (t, { s with tracking_cnt := wrap32 (s.tracking_cnt + 1),
               trackings_ := s.trackings_ ++ [t] })

/-- `TrackingManager::cleanTrackings`: the erase-loop that removes every track
whose `isActive()` is false, in place, left to right. -/
def cleanTrackings : List Tracking → List Tracking
  | [] => []
  | t :: ts => if t.active = false then cleanTrackings ts else t :: cleanTrackings ts

/-- `cv::Rect2d` intersection (`operator&`): intersection of the two boxes, or
the all-zero rectangle when they do not overlap. -/
def rectInter (a b : Rect) : Rect :=
  let x1 := max a.x b.x
  let y1 := max a.y b.y
  let x2 := min (a.x + a.width) (b.x + b.width)
  let y2 := min (a.y + a.height) (b.y + b.height)
  if x2 ≤ x1 ∨ y2 ≤ y1 then { x := 0, y := 0, width := 0, height := 0 }
  else { x := x1, y := y1, width := x2 - x1, height := y2 - y1 }

/-- `cv::Rect2d::area()`. -/
def rectArea (r : Rect) : ℚ := r.width * r.height

/-- The search loop of `TrackingManager::getTracking`, folded over `trackings_`.
Accumulates `match` (called `mtch`: `ℚ`, starts 0), the best `tracking` seen
(starts at the empty pointer, `none`) and `in_timezone` (set on every iteration;
the `checkTimeZone` test is compiled out with `#if 0`). For a track with the
requested name it scores `overlap * 100 / deviate` where `overlap` is the
intersection-over-union of the two rectangles and `deviate` the euclidean
distance of their integer-truncated centres; `sqrtQ` models the C `sqrt`
primitive. (Caveat of the model: `ℚ` division by zero yields 0 where C floats
give `inf`/`nan`; the divide-by-zero hazard is flagged in the spec itself and no
theorem below evaluates such a run.) -/
def getTrackingLoop (sqrtQ : ℚ → ℚ) (obj_name : String) (rect : Rect) :
    List Tracking → ℚ → Option Tracking → Bool → ℚ × Option Tracking × Bool
  | [], mtch, tracking, itz => (mtch, tracking, itz)
  | t :: ts, mtch, tracking, _ =>
    if obj_name = t.objName then
      let trect := t.rect
      let c1 : Int × Int :=
        (qtrunc (trect.x + trect.width / 2), qtrunc (trect.y + trect.height / 2))
      let c2 : Int × Int :=
        (qtrunc (rect.x + rect.width / 2), qtrunc (rect.y + rect.height / 2))
      let a1 := rectArea trect
      let a2 := rectArea rect
      let a0 := rectArea (rectInter trect rect)
      let overlap := a0 / (a1 + a2 - a0)
      let deviate := sqrtQ (((c1.1 - c2.1 : Int) : ℚ) ^ 2 + ((c1.2 - c2.2 : Int) : ℚ) ^ 2)
      let m := overlap * 100 / deviate
      if m > mtch then getTrackingLoop sqrtQ obj_name rect ts m (some t) true
      else getTrackingLoop sqrtQ obj_name rect ts mtch tracking true
    else getTrackingLoop sqrtQ obj_name rect ts mtch tracking true

/-- `TrackingManager::getTracking`: greedy single-detection matcher. Runs the
loop above; if the best match exceeds `kMatchThreshold` it returns that track
with the state untouched; otherwise, if there are no tracks at all or
`in_timezone > 0`, it creates and returns a new track via `addTracking`;
otherwise it returns the empty pointer. The `stamp` argument is unused because
the `checkTimeZone` block is compiled out. -/
def getTracking (sqrtQ : ℚ → ℚ) (s : TMState) (obj_name : String) (rect : Rect)
    (probability : ℚ) (stamp : Timespec) : Option Tracking × TMState :=
  let r := getTrackingLoop sqrtQ obj_name rect s.trackings_ 0 none false
  let mtch := r.1
  let tracking := r.2.1
  let in_timezone := r.2.2
  if mtch > kMatchThreshold then (tracking, s)
  else if s.trackings_.length = 0 ∨ in_timezone then
    let a := addTracking s obj_name probability rect
    (some a.1, a.2)
  else (none, s)

/-- `TrackingManager::matchTrackDetWithDistance`: no-op on an empty matrix or
when the caller-provided output rows have the wrong width; otherwise copies the
distance matrix into the solver, runs `Munkres<float>::solve` (external,
`munkres.h` is not part of this translation unit: passed in as `munkresSolve`,
which returns the solved matrix), and records `row_match[row] = col`,
`col_match[col] = row` for every cell of the solved matrix that equals zero. -/
def matchTrackDetWithDistance
    (munkresSolve : List (List (Option ℚ)) → List (List (Option ℚ)))
    (distance : List (List (Option ℚ))) (row_match col_match : List Int) :
    List Int × List Int :=
  let origin_rows := distance.length
  let origin_cols := (distance.headD []).length
  if distance = [] then (row_match, col_match)
  else if row_match.length ≠ origin_rows ∨ col_match.length ≠ origin_cols then
    (row_match, col_match)
  else
    let matrix := munkresSolve distance
    (List.range origin_rows).foldl
      (fun rc row =>
        (List.range origin_cols).foldl
          (fun rc2 col =>
            if (matrix.getD row []).getD col none = some 0 then
              (rc2.1.set row (col : Int), rc2.2.set col (row : Int))
            else rc2)
          rc)
      (row_match, col_match)

/-- Modelled from the spec: `Munkres<float>::solve` (declared in `munkres.h`,
which is not under `src/`) solves the minimum-cost assignment problem and leaves
a zero in the solved matrix exactly at the assigned cells (spec §4.3). On a 1×1
matrix with a finite cost the unique pairing is assigned, so the solved matrix
is `[[0]]`. This concrete instance is only used to drive runs whose input
matrices are 1×1. -/
def munkresSolveOne : List (List (Option ℚ)) → List (List (Option ℚ)) :=
  fun _ => [[some 0]]

/-- The per-detection loop at the end of `detectRecvProcess` (lines 213–226): a
detection whose `det_matches` entry is ≥ 0 only triggers a log line; one with no
assigned track spawns a new `Tracking` via `addTracking` and immediately calls
`rectifyTracker(frame, BoundBox_)` on it. Calls to the external
`Tracking::rectifyTracker` are recorded as `(track, rect)` events in the second
component. `objs` and `det_matches` always have the same length at the call
site (`det_matches` is created 1×`objs.size()`); the ragged case — an
out-of-bounds `cv::Mat` read in C — returns the state unchanged. -/
def processObjs (frame : sFrame) :
    List Object → List Int → TMState → TMState × List (Tracking × Rect)
  | [], _, s => (s, [])
  | o :: os, d :: ds, s =>
    if d ≥ 0 then processObjs frame os ds s
    else
      let a := addTracking s o.Category_ o.Confidence_ o.BoundBox_
      let rest := processObjs frame os ds a.2
      (rest.1, (a.1, o.BoundBox_) :: rest.2)
  | _ :: _, [], s => (s, [])

/-- `TrackingManager::detectRecvProcess`: returns immediately when
`initialized_ && isDetFrameValid(stamp)`; otherwise builds the Mahalanobis
distance matrix, runs the Munkres matcher when that matrix is non-empty (the
match arrays start at −1), walks the detections with `processObjs`, and finally
sets `initialized_ = true` unconditionally. Returns the new manager state and
the list of `rectifyTracker` events. -/
def detectRecvProcess {Cov : Type}
    (getTraj : Tracking → Timespec → Option (Traj Cov))
    (mahal : ℚ × ℚ → ℚ × ℚ → Cov → ℚ) (covInv : Cov → Cov)
    (munkresSolve : List (List (Option ℚ)) → List (List (Option ℚ)))
    (s : TMState) (frame : sFrame) (objs : List Object) :
    TMState × List (Tracking × Rect) :=
  let stamp := frame.stamp
  if s.initialized_ && isDetFrameValid s.validFrames_ stamp then (s, [])
  else
    let distance := calcTrackDetMahaDistance getTraj mahal covInv objs s.trackings_ stamp
    let det_matches0 := List.replicate objs.length (-1 : Int)
    let tracker_matches0 := List.replicate s.trackings_.length (-1 : Int)
    let mres :=
      if distance ≠ [] then
        matchTrackDetWithDistance munkresSolve distance tracker_matches0 det_matches0
      else (tracker_matches0, det_matches0)
    let pr := processObjs frame objs mres.2 s
    ({ pr.1 with initialized_ := true }, pr.2)

/-- The mutable state threaded through `TrackingManager::searchMatch`:
`row_visit`, `col_visit`, `col_mask` (the column→row match array, `tgtMatch`)
and `col_gap` (`weightDelta`, float entries that may be `INFINITY`). -/
structure SearchState where
  srcVisit : List Bool
  tgtVisit : List Bool
  tgtMatch : List Int
  weightDelta : List (Option ℚ)
deriving DecidableEq, Repr, Inhabited

/-- The column loop of `TrackingManager::searchMatch`, over an explicit list of
column indices (the call sites pass `List.range` of the column count, matching
the C `for` loop). For an unvisited column it computes
`gap = srcCorr[srcId] + tgtCorr[i] - correlations[srcId][i]`; the source's
`if (abs(gap <= 1e-04)) gap = 0.0f;` applies `abs` to the *boolean* comparison,
so the net effect is: `gap` is zeroed exactly when `gap ≤ 1e-4`. On a zero gap
the column is visited and either taken directly (if unmatched) or fought for by
recursing on its current owner (`recurse`, the fuel-limited `searchMatch`);
otherwise `weightDelta[i]` is lowered to `min(gap, weightDelta[i])`. -/
def searchCols (C : List (List ℚ)) (S T : List ℚ)
    (recurse : Nat → SearchState → Option (Bool × SearchState)) (srcId : Nat) :
    List Nat → SearchState → Option (Bool × SearchState)
  | [], st => some (false, st)
  | i :: rest, st =>
    if st.tgtVisit.getD i false then searchCols C S T recurse srcId rest st
    else
      let gap0 := S.getD srcId 0 + T.getD i 0 - (C.getD srcId []).getD i 0
      let gap := if gap0 ≤ 1 / 10000 then (0 : ℚ) else gap0
      if gap = 0 then
        let st2 : SearchState := { st with tgtVisit := st.tgtVisit.set i true }
        let tgtSrcIdx := st2.tgtMatch.getD i (-1)
        if tgtSrcIdx = -1 then
          some (true, { st2 with tgtMatch := st2.tgtMatch.set i (srcId : Int) })
        else
          match recurse tgtSrcIdx.toNat st2 with
          | none => none
          | some (true, st3) =>
            some (true, { st3 with tgtMatch := st3.tgtMatch.set i (srcId : Int) })
          | some (false, st3) => searchCols C S T recurse srcId rest st3
      else
        searchCols C S T recurse srcId rest
          { st with weightDelta :=
              st.weightDelta.set i (minOpt (some gap) (st.weightDelta.getD i none)) }

/-- `TrackingManager::searchMatch`: marks the row visited, then runs the column
loop; the recursive descent is fuel-limited (`none` on exhaustion; the C
recursion depth is bounded by the number of columns, and the call sites pass
more fuel than that, so the fuel never runs out on the runs proved below). -/
def searchMatch (C : List (List ℚ)) (S T : List ℚ) :
    Nat → Nat → SearchState → Option (Bool × SearchState)
  | 0, _, _ => none
  | fuel + 1, srcId, st =>
    searchCols C S T (fun j st2 => searchMatch C S T fuel j st2) srcId
      (List.range T.length) { st with srcVisit := st.srcVisit.set srcId true }

/-- The `while (true)` retry loop of `matchTrackDetWithProb` for one row `i`:
reset the visit masks, search; on failure take the minimum slack of `col_gap`
(`cv::minMaxIdx`), raise the visited column labels and lower the visited row
labels by it, and retry. Fuel-limited (`none` on exhaustion); an all-`INFINITY`
`col_gap` would push float `INFINITY` into the labels, which the `ℚ` model also
reports as `none`. Returns the updated labels and column match array. -/
def huntWhile (C : List (List ℚ)) (n : Nat) :
    Nat → Nat → List ℚ → List ℚ → List Int → List (Option ℚ) →
    Option (List ℚ × List ℚ × List Int)
  | 0, _, _, _, _, _ => none
  | wfuel + 1, i, rowWeight, colWeight, colMask, colGap =>
    match searchMatch C rowWeight colWeight (n + 1) i
        { srcVisit := List.replicate n false, tgtVisit := List.replicate n false,
          tgtMatch := colMask, weightDelta := colGap } with
    | none => none
    | some (true, st) => some (rowWeight, colWeight, st.tgtMatch)
    | some (false, st) =>
      match st.weightDelta.foldl minOpt none with
      | none => none
      | some min_gap =>
        let colWeight2 := List.zipWith (fun v x => if v then x + min_gap else x) st.tgtVisit colWeight
        let rowWeight2 := List.zipWith (fun v x => if v then x - min_gap else x) st.srcVisit rowWeight
        huntWhile C n wfuel i rowWeight2 colWeight2 st.tgtMatch st.weightDelta

/-- The outer `for` loop of `matchTrackDetWithProb` over the row indices:
each row reinitialises `col_gap` to `INFINITY` and runs the retry loop. -/
def huntRows (C : List (List ℚ)) (n : Nat) :
    List Nat → List ℚ → List ℚ → List Int → Option (List Int)
  | [], _, _, colMask => some colMask
  | i :: rest, rowWeight, colWeight, colMask =>
    match huntWhile C n (n * n + 2) i rowWeight colWeight colMask
        (List.replicate n (none : Option ℚ)) with
    | none => none
    | some (rowWeight2, colWeight2, colMask2) =>
      huntRows C n rest rowWeight2 colWeight2 colMask2

/-- `TrackingManager::matchTrackDetWithProb` (the maximum-weight matcher): pads
the weight matrix with zeros to a `size_squal × size_squal` square, initialises
each row label to the row maximum (via the source's `row_max <= row_value`
fold starting from `0.0f`; the column scan of that loop stores nothing), the
column labels and match array to 0 and −1, runs the labelling search row by
row, and copies the leading `matchesLen` entries of `col_mask` into the
caller's `matches` array. The `row_mask` local of the source is never read and
is omitted. -/
def matchTrackDetWithProb (weights : List (List ℚ)) (matchesLen : Nat) :
    Option (List Int) :=
  let origin_rows := weights.length
  let origin_cols := (weights.headD []).length
  let size_squal := max origin_rows origin_cols
  let correlations := (List.range size_squal).map fun i =>
    (List.range size_squal).map fun j => (weights.getD i []).getD j 0
  let rowWeight := (List.range size_squal).map fun i =>
    (correlations.getD i []).foldl (fun row_max v => if row_max ≤ v then v else row_max) 0
  let colWeight := List.replicate size_squal (0 : ℚ)
  let colMask := List.replicate size_squal (-1 : Int)
  match huntRows correlations size_squal (List.range size_squal) rowWeight colWeight colMask with
  | none => none
  | some cm => some (cm.take matchesLen)

/-! Concrete fixtures used to evaluate the embedded functions on specific
inputs (states reachable through the public entry points, plus concrete
instances of the external collaborators). -/

/-- A detection with label "person" at rectangle (10,10,1,1). -/
def detPerson : Object :=
  { Category_ := "person", Confidence_ := 1 / 2,
    BoundBox_ := { x := 10, y := 10, width := 1, height := 1 } }

/-- An existing track with label "person" at rectangle (0,0,1,1). -/
def trackPerson : Tracking :=
  { trackingId := 0, objName := "person", probability := 9 / 10,
    rect := { x := 0, y := 0, width := 1, height := 1 },
    algo := "MEDIAN_FLOW", active := true }

/-- An initialized manager whose admission window holds exactly the stamp
(10 s, 20 ns) and which owns no tracks. -/
def stateAdmitted : TMState :=
  { algo_ := "MEDIAN_FLOW", initialized_ := true, qFrameNumLimit_ := 5,
    validFrames_ := [⟨10, 20⟩], trackings_ := [], tracking_cnt := 0 }

/-- A manager owning one "person" track (created through `addTracking`, hence
counter 1), not yet initialized. -/
def stateOneTrack : TMState :=
  { algo_ := "MEDIAN_FLOW", initialized_ := false, qFrameNumLimit_ := 5,
    validFrames_ := [], trackings_ := [trackPerson], tracking_cnt := 1 }

/-- An initialized manager with a full (5-element) admission window. -/
def stateFullWindow : TMState :=
  { algo_ := "MEDIAN_FLOW", initialized_ := true, qFrameNumLimit_ := 5,
    validFrames_ := [⟨0, 0⟩, ⟨0, 1⟩, ⟨0, 2⟩, ⟨0, 3⟩, ⟨0, 4⟩],
    trackings_ := [], tracking_cnt := 0 }

/-- A `Tracking::getTraj` collaborator that never has a trajectory. -/
def getTrajNone : Tracking → Timespec → Option (Traj Unit) := fun _ _ => none

/-- A `Tracking::getTraj` collaborator that always predicts the (0,0,1,1) box
(trivial covariance witness). -/
def getTrajUnit : Tracking → Timespec → Option (Traj Unit) :=
  fun _ _ => some ⟨{ x := 0, y := 0, width := 1, height := 1 }, ()⟩

/-- A `cv::Mahalanobis` collaborator that always measures distance 0. -/
def mahalZero : ℚ × ℚ → ℚ × ℚ → Unit → ℚ := fun _ _ _ => 0

/-- A `cv::Mahalanobis` collaborator that always measures distance 1. -/
def mahalOne : ℚ × ℚ → ℚ × ℚ → Unit → ℚ := fun _ _ _ => 1

/-- A `sqrt` collaborator evaluated only at 200 in the runs below
(`sqrt 200 ≈ 14.14`; any positive value serves, the score is 0 regardless). -/
def sqrt14 : ℚ → ℚ := fun _ => 14

/-- A `Tracking::updateTracker` collaborator that leaves the manager-visible
track data unchanged (updates touch only the opaque motion state). -/
def updateIdT : Tracking → sFrame → Tracking := fun t _ => t

/-- The query rectangle used by the greedy-matcher runs. -/
def queryRect : Rect := { x := 10, y := 10, width := 1, height := 1 }

/-- Constant argument streams for repeated `addTracking` calls. -/
def cName : Nat → String := fun _ => "obj"

/-- Constant probability stream for repeated `addTracking` calls. -/
def cProb : Nat → ℚ := fun _ => 1

/-- Constant rectangle stream for repeated `addTracking` calls. -/
def cRect : Nat → Rect := fun _ => { x := 0, y := 0, width := 1, height := 1 }

/-- The manager state after `k` successive `addTracking` calls (with the
`k`-th call taking arguments `names k`, `probs k`, `rects k`), starting from
the constructor state. -/
def addTrackingSeq (names : Nat → String) (probs : Nat → ℚ) (rects : Nat → Rect) :
    Nat → TMState
  | 0 => TrackingManagerCtor
  | k + 1 =>
    (addTracking (addTrackingSeq names probs rects k) (names k) (probs k) (rects k)).2

/-- The id handed out by the `(k+1)`-th `addTracking` call of the sequence
above: the counter value before that call. -/
def idAt (names : Nat → String) (probs : Nat → ℚ) (rects : Nat → Rect) (k : Nat) : Int :=
  (addTrackingSeq names probs rects k).tracking_cnt

/-! Auxiliary descriptions of the Hungarian-search state reached on an all-zero
weight matrix. These are proof infrastructure (closed forms proved to equal the
states computed by the embedded `matchTrackDetWithProb`), not translations. -/

/-- Visit mask with the first `m` of `n` entries set. -/
def visitUpto (m n : Nat) : List Bool := (List.range n).map fun j => decide (j < m)

/-- The column match array after the rows `0..i-1` have been processed on an
all-zero `n × n` matrix: column 0 holds row `i-1`, column `j` (for
`1 ≤ j < i`) holds row `i-1-j`, the rest are unmatched. -/
def zmask (i n : Nat) : List Int :=
  (List.range n).map fun j => if j < i then (i : Int) - 1 - j else -1

/-- The column match array midway through the augmenting search for row `i`
on the all-zero matrix: the suffix of columns `i-k .. i` has been rewritten
to `col j ↦ row i - j`, the rest still reads as `zmask i n`. -/
def zstep (i k n : Nat) : List Int :=
  (List.range n).map fun j =>
    if i - k ≤ j ∧ j ≤ i then (i : Int) - j
    else if j < i then (i : Int) - 1 - j else -1

/-- The row-visit mask written by the descending recursion
`searchMatch k, k-1, …, 0`: rows `0..k` marked on top of `sv`. -/
def markDown : Nat → List Bool → List Bool
  | 0, sv => sv.set 0 true
  | m + 1, sv => markDown m (sv.set (m + 1) true)

/-- The all-zero `n × n` matrix. -/
def corrZ (n : Nat) : List (List ℚ) := List.replicate n (List.replicate n (0 : ℚ))

/-- The all-zero vector of length `n`. -/
def zeroVec (n : Nat) : List ℚ := List.replicate n (0 : ℚ)

/-- The column indices `v, v+1, …, n-1`: the tail of the column loop that the
search resumes at after skipping the visited prefix. -/
def colsFrom (v n : Nat) : List Nat := (List.range (n - v)).map fun j => v + j

/-! Theorems. -/

/-- C4 counterexample: the window holds latest stamp (0 s, 5 ns) and the
incoming stamp is (0 s, 5 ns); its nanosecond field is not earlier than (it
equals) the latest admitted one, so the claim says it is accepted — but
`isTrackFrameValid` rejects it. -/
theorem C4_equal_nsec_rejected :
    isTrackFrameValid [⟨0, 5⟩] ⟨0, 5⟩ = false ∧
      ¬((⟨0, 5⟩ : Timespec).tv_nsec < (⟨0, 5⟩ : Timespec).tv_nsec) := by
  exact ⟨rfl, by omega⟩

/-- C4 as amended: `isTrackFrameValid` returns true exactly when the window is
empty or the timestamp's nanosecond field is strictly greater than that of the
most recently admitted timestamp; an equal nanosecond field is rejected (and
the seconds fields are never consulted). -/
theorem C4_order_characterisation (w : List Timespec) (s : Timespec) :
    isTrackFrameValid w s = true ↔
      w = [] ∨ ∃ latest, w.getLast? = some latest ∧ latest.tv_nsec < s.tv_nsec := by
  unfold isTrackFrameValid
  cases hw : w.getLast? with
  | none =>
    simp only [List.getLast?_eq_none_iff] at hw
    simp [hw]
  | some latest =>
    have hne : w ≠ [] := by
      intro h
      rw [h] at hw
      simp at hw
    simp only [hne, false_or]
    constructor
    · intro h
      refine ⟨latest, rfl, ?_⟩
      by_contra hlt
      push_neg at hlt
      rcases eq_or_lt_of_le hlt with heq | hgt
      · rw [if_neg (by omega), if_neg (by omega), if_pos (by omega)] at h
        exact Bool.false_ne_true h
      · rw [if_pos (by omega)] at h
        exact Bool.false_ne_true h
    · rintro ⟨l', hl', hlt⟩
      injection hl' with he
      subst he
      rw [if_neg (by omega), if_pos hlt]

/-- The erase-loop of `cleanTrackings` is the filter on the active flag. -/
theorem cleanTrackings_eq_filter (l : List Tracking) :
    cleanTrackings l = l.filter fun t => t.active := by
  induction l with
  | nil => rfl
  | cons t ts ih =>
    unfold cleanTrackings
    cases h : t.active with
    | false => simp [h, ih, List.filter_cons]
    | true => simp [h, ih, List.filter_cons]

/-- C7: `cleanTrackings` keeps exactly the tracks whose active flag is true
(removes exactly the inactive ones), preserves the relative order of survivors
(the result is a sublist of the input), and is idempotent. -/
theorem C7_prune_exact_order_idem (l : List Tracking) :
    (∀ t, t ∈ cleanTrackings l ↔ t ∈ l ∧ t.active = true) ∧
      (cleanTrackings l).Sublist l ∧
      cleanTrackings (cleanTrackings l) = cleanTrackings l := by
  refine ⟨?_, ?_, ?_⟩
  · intro t
    rw [cleanTrackings_eq_filter]
    simp [List.mem_filter]
  · rw [cleanTrackings_eq_filter]
    exact List.filter_sublist l
  · rw [cleanTrackings_eq_filter, cleanTrackings_eq_filter, List.filter_filter]
    simp

/-- C1: evaluation of `detectRecvProcess` on an initialized manager showing the
admission guard is inverted. A batch stamped (10 s, 20 ns) — which is present
in the admission window — is dropped wholesale (state unchanged, no events),
while a batch stamped (10 s, 21 ns) — which was never admitted — is fully
processed and spawns a new track. The claim (and the spec) state exactly the
opposite behaviour: the source line is
`if (initialized_ && isDetFrameValid(stamp)) return;`, which returns precisely
when the stamp is valid. -/
theorem C1_guard_inverted_eval :
    isDetFrameValid stateAdmitted.validFrames_ ⟨10, 20⟩ = true ∧
      detectRecvProcess getTrajNone mahalZero id munkresSolveOne stateAdmitted
        ⟨⟨10, 20⟩⟩ [detPerson] = (stateAdmitted, []) ∧
      isDetFrameValid stateAdmitted.validFrames_ ⟨10, 21⟩ = false ∧
      (detectRecvProcess getTrajNone mahalZero id munkresSolveOne stateAdmitted
        ⟨⟨10, 21⟩⟩ [detPerson]).1.trackings_.length = 1 := by
  exact ⟨rfl, rfl, rfl, rfl⟩

/-- C2 counterexample: one live track, one detection, and a solver run that
assigns detection 0 to track 0 (`det_matches = [0]`, exactly what the Munkres
solver yields on the 1×1 finite-cost matrix `[[1]]`). The claim says the
matched detection is forwarded to its track for correction; the run produces no
`rectifyTracker` event at all (and no new track): the matched branch of the
loop only prints. -/
theorem C2_matched_not_rectified :
    calcTrackDetMahaDistance getTrajUnit mahalOne id [detPerson] [trackPerson]
        ⟨0, 0⟩ = [[some 1]] ∧
      matchTrackDetWithDistance munkresSolveOne [[some 1]] [-1] [-1] = ([0], [0]) ∧
      detectRecvProcess getTrajUnit mahalOne id munkresSolveOne stateOneTrack
        ⟨⟨0, 0⟩⟩ [detPerson] = ({ stateOneTrack with initialized_ := true }, []) := by
  exact ⟨rfl, rfl, rfl⟩

/-- C2 as amended: in the detection loop of `detectRecvProcess`, a detection the
solver matched to a track (`det_matches` entry ≥ 0) produces no
`rectifyTracker` call — it is only logged — while every unmatched detection
spawns a new `Tracking` (appended to the sequence) which immediately receives
the detection's rectangle via `rectifyTracker`. The events are exactly the
(new track, its detection rectangle) pairs of the unmatched detections, in
order. -/
theorem C2_unmatched_spawn_rectify (frame : sFrame) (objs : List Object)
    (dm : List Int) (s s2 : TMState) (ev : List (Tracking × Rect))
    (hlen : dm.length = objs.length)
    (hrun : processObjs frame objs dm s = (s2, ev)) :
    s2.trackings_ = s.trackings_ ++ ev.map Prod.fst ∧
      ev.map Prod.snd =
        (((objs.zip dm).filter fun od => od.2 < 0).map fun od => od.1.BoundBox_) ∧
      ∀ p ∈ ev, p.1.rect = p.2 ∧ p.1.active = true := by
  induction objs generalizing dm s s2 ev with
  | nil =>
    unfold processObjs at hrun
    cases hrun
    simp
  | cons o os ih =>
    cases dm with
    | nil => simp at hlen
    | cons d ds =>
      simp only [List.length_cons, Nat.succ_inj] at hlen
      unfold processObjs at hrun
      by_cases hd : d ≥ 0
      · rw [if_pos hd] at hrun
        have h := ih ds s s2 ev hlen hrun
        refine ⟨h.1, ?_, h.2.2⟩
        rw [h.2.1]
        simp [List.filter_cons, not_lt.mpr hd]
      · rw [if_neg hd] at hrun
        push_neg at hd
        simp only at hrun
        set a := addTracking s o.Category_ o.Confidence_ o.BoundBox_ with ha
        set rest := processObjs frame os ds a.2 with hrest
        have hpair : rest = (rest.1, rest.2) := rfl
        have h := ih ds a.2 rest.1 rest.2 hlen hpair.symm
        cases hrun
        constructor
        · rw [h.1]
          simp only [ha, addTracking, List.map_cons]
          simp [List.append_assoc]
        constructor
        · simp only [List.map_cons]
          rw [h.2.1]
          simp [List.filter_cons, hd]
        · intro p hp
          rcases List.mem_cons.mp hp with h1 | h1
          · subst h1
            exact ⟨rfl, rfl⟩
          · exact h.2.2 p h1

/-- Witness for the amended C2 theorem: one unmatched detection spawns exactly
one rectified track, evaluated at a concrete input. -/
theorem C2_unmatched_spawn_rectify_witness :
    (processObjs ⟨⟨0, 0⟩⟩ [detPerson] [-1] TrackingManagerCtor).1.trackings_ =
        TrackingManagerCtor.trackings_ ++
          ((processObjs ⟨⟨0, 0⟩⟩ [detPerson] [-1] TrackingManagerCtor).2.map Prod.fst) ∧
      (processObjs ⟨⟨0, 0⟩⟩ [detPerson] [-1] TrackingManagerCtor).2.map Prod.snd =
        ((([detPerson].zip [-1]).filter fun od => od.2 < 0).map fun od => od.1.BoundBox_) ∧
      ∀ p ∈ (processObjs ⟨⟨0, 0⟩⟩ [detPerson] [-1] TrackingManagerCtor).2,
        p.1.rect = p.2 ∧ p.1.active = true :=
  C2_unmatched_spawn_rectify ⟨⟨0, 0⟩⟩ [detPerson] [-1] TrackingManagerCtor _ _
    (by decide) rfl

/-- The threshold constant is 0.3. -/
theorem kMatchThreshold_eq : kMatchThreshold = 3 / 10 := by
  norm_num [kMatchThreshold]

/-- Bridge from `getD` to `getElem` for in-range indices. -/
theorem getD_of_lt {α : Type} (l : List α) (i : Nat) (d : α) (h : i < l.length) :
    l.getD i d = l[i] := by
  rw [List.getD_eq_getElem?_getD, List.getElem?_eq_getElem h, Option.getD_some]

/-- The search loop of `getTracking` reports `in_timezone = 1` whenever it was
already set. -/
theorem getTrackingLoop_itz_true (sqrtQ : ℚ → ℚ) (name : String) (r : Rect) :
    ∀ (ts : List Tracking) (m : ℚ) (trk : Option Tracking),
      (getTrackingLoop sqrtQ name r ts m trk true).2.2 = true := by
  intro ts
  induction ts with
  | nil => intro m trk; rfl
  | cons t ts ih =>
    intro m trk
    unfold getTrackingLoop
    by_cases h1 : name = t.objName
    · rw [if_pos h1]
      dsimp only
      split
      · exact ih _ _
      · exact ih _ _
    · rw [if_neg h1]
      exact ih _ _

/-- The search loop of `getTracking` sets `in_timezone = 1` on every iteration,
so any non-empty track list makes it end up set. -/
theorem getTrackingLoop_itz_cons (sqrtQ : ℚ → ℚ) (name : String) (r : Rect)
    (t : Tracking) (ts : List Tracking) (m : ℚ) (trk : Option Tracking) (itz : Bool) :
    (getTrackingLoop sqrtQ name r (t :: ts) m trk itz).2.2 = true := by
  unfold getTrackingLoop
  by_cases h1 : name = t.objName
  · rw [if_pos h1]
    dsimp only
    split
    · exact getTrackingLoop_itz_true sqrtQ name r ts _ _
    · exact getTrackingLoop_itz_true sqrtQ name r ts _ _
  · rw [if_neg h1]
    exact getTrackingLoop_itz_true sqrtQ name r ts _ _

/-- Loop invariant of `getTracking`: a strictly positive best score comes with a
best track whose label is the requested name (the scoring branch is guarded by
the name comparison). -/
theorem getTrackingLoop_name (sqrtQ : ℚ → ℚ) (name : String) (r : Rect) :
    ∀ (ts : List Tracking) (m : ℚ) (trk : Option Tracking) (itz : Bool),
      (0 < m → ∃ t, trk = some t ∧ t.objName = name) →
      0 < (getTrackingLoop sqrtQ name r ts m trk itz).1 →
      ∃ t, (getTrackingLoop sqrtQ name r ts m trk itz).2.1 = some t ∧ t.objName = name := by
  intro ts
  induction ts with
  | nil =>
    intro m trk itz hinv hpos
    exact hinv hpos
  | cons t ts ih =>
    intro m trk itz hinv hpos
    unfold getTrackingLoop at hpos ⊢
    by_cases h1 : name = t.objName
    · rw [if_pos h1] at hpos ⊢
      dsimp only at hpos ⊢
      revert hpos
      split
      · intro hpos
        exact ih _ _ _ (fun _ => ⟨t, rfl, h1.symm⟩) hpos
      · intro hpos
        exact ih _ _ _ hinv hpos
    · rw [if_neg h1] at hpos ⊢
      exact ih _ _ _ hinv hpos

/-- C3 counterexample: the manager owns one "person" track, the query has the
same label but zero rectangle overlap, so the best score is 0 ≤ 0.3. The claim
says the result is empty and no track is created; instead `getTracking` returns
a freshly created track and the sequence grows to two tracks (the
`in_timezone` flag is set for every visited track, so the empty branch cannot
be taken). -/
theorem C3_low_score_still_creates :
    (getTrackingLoop sqrt14 ("person") queryRect [trackPerson] 0 none false).1 = 0 ∧
      ¬(kMatchThreshold < (0 : ℚ)) ∧
      stateOneTrack.trackings_.length = 1 ∧
      (getTracking sqrt14 stateOneTrack ("person") queryRect 1 ⟨0, 0⟩).1 ≠ none ∧
      (getTracking sqrt14 stateOneTrack ("person") queryRect 1 ⟨0, 0⟩).2.trackings_.length = 2 := by
  have hloop :
      getTrackingLoop sqrt14 ("person") queryRect [trackPerson] 0 none false =
        (0, none, true) := by
    unfold getTrackingLoop
    norm_num [trackPerson, queryRect, rectInter, rectArea, sqrt14, qtrunc]
    rfl
  refine ⟨by rw [hloop], by rw [kMatchThreshold_eq]; norm_num, rfl, ?_, ?_⟩
  · unfold getTracking
    dsimp only [stateOneTrack]
    rw [hloop]
    norm_num [kMatchThreshold_eq]
    simp
  · unfold getTracking
    dsimp only [stateOneTrack]
    rw [hloop]
    norm_num [kMatchThreshold_eq, addTracking]

/-- C3 as amended: when the best same-label score exceeds the 0.3 threshold the
best-scoring existing track is returned and the state is untouched; in every
other case — including when tracks exist but none scores above the threshold —
a new track is created and returned. In particular the empty result of the
claim is never produced: `in_timezone` is set for every visited track, so the
`else` branch returning the empty pointer is unreachable. -/
theorem C3_match_or_create (sqrtQ : ℚ → ℚ) (s : TMState) (name : String)
    (r : Rect) (p : ℚ) (st : Timespec) :
    getTracking sqrtQ s name r p st =
      (if (getTrackingLoop sqrtQ name r s.trackings_ 0 none false).1 > kMatchThreshold
        then ((getTrackingLoop sqrtQ name r s.trackings_ 0 none false).2.1, s)
        else (some (addTracking s name p r).1, (addTracking s name p r).2)) ∧
      (getTracking sqrtQ s name r p st).1 ≠ none := by
  constructor
  · unfold getTracking
    dsimp only
    by_cases hc :
        (getTrackingLoop sqrtQ name r s.trackings_ 0 none false).1 > kMatchThreshold
    · rw [if_pos hc, if_pos hc]
    · rw [if_neg hc, if_neg hc]
      cases hs : s.trackings_ with
      | nil =>
        have hcond : ([] : List Tracking).length = 0 ∨
            (getTrackingLoop sqrtQ name r [] 0 none false).2.2 = true := Or.inl rfl
        rw [if_pos hcond]
      | cons t ts =>
        have hcond : (t :: ts).length = 0 ∨
            (getTrackingLoop sqrtQ name r (t :: ts) 0 none false).2.2 = true :=
          Or.inr (getTrackingLoop_itz_cons sqrtQ name r t ts 0 none false)
        rw [if_pos hcond]
  · unfold getTracking
    dsimp only
    by_cases hc :
        (getTrackingLoop sqrtQ name r s.trackings_ 0 none false).1 > kMatchThreshold
    · rw [if_pos hc]
      have h0 : (0 : ℚ) < (getTrackingLoop sqrtQ name r s.trackings_ 0 none false).1 :=
        lt_trans (by rw [kMatchThreshold_eq]; norm_num) hc
      obtain ⟨t, ht, _⟩ :=
        getTrackingLoop_name sqrtQ name r s.trackings_ 0 none false
          (fun h => absurd h (lt_irrefl 0)) h0
      rw [ht]
      simp
    · rw [if_neg hc]
      by_cases h2 :
          s.trackings_.length = 0 ∨
            (getTrackingLoop sqrtQ name r s.trackings_ 0 none false).2.2 = true
      · rw [if_pos h2]
        simp
      · rw [if_neg h2]
        exfalso
        apply h2
        cases hs : s.trackings_ with
        | nil => exact Or.inl rfl
        | cons t ts =>
          exact Or.inr (getTrackingLoop_itz_cons sqrtQ name r t ts 0 none false)

/-- C10: whenever `getTracking` returns a non-empty result, the returned
track's label equals the requested object name — the scoring loop only ever
selects same-label tracks, and the creation branch constructs the track with
the requested name. -/
theorem C10_returned_label (sqrtQ : ℚ → ℚ) (s : TMState) (name : String)
    (r : Rect) (p : ℚ) (st : Timespec) (t : Tracking) (s2 : TMState)
    (h : getTracking sqrtQ s name r p st = (some t, s2)) : t.objName = name := by
  unfold getTracking at h
  dsimp only at h
  by_cases hc :
      (getTrackingLoop sqrtQ name r s.trackings_ 0 none false).1 > kMatchThreshold
  · rw [if_pos hc] at h
    have h0 : (0 : ℚ) < (getTrackingLoop sqrtQ name r s.trackings_ 0 none false).1 :=
      lt_trans (by rw [kMatchThreshold_eq]; norm_num) hc
    obtain ⟨t', ht', hn⟩ :=
      getTrackingLoop_name sqrtQ name r s.trackings_ 0 none false
        (fun hx => absurd hx (lt_irrefl 0)) h0
    rw [ht'] at h
    rw [Prod.mk.injEq] at h
    obtain ⟨h1, _⟩ := h
    injection h1 with h1
    rw [← h1]
    exact hn
  · rw [if_neg hc] at h
    by_cases h2 :
        s.trackings_.length = 0 ∨
          (getTrackingLoop sqrtQ name r s.trackings_ 0 none false).2.2 = true
    · rw [if_pos h2] at h
      rw [Prod.mk.injEq] at h
      obtain ⟨h1, _⟩ := h
      injection h1 with h1
      rw [← h1]
      rfl
    · rw [if_neg h2] at h
      rw [Prod.mk.injEq] at h
      exact absurd h.1 (by simp)

/-- Witness for C10 at a concrete input: on an empty manager the query for
"cat" returns the newly created track, whose label is "cat". -/
theorem C10_returned_label_witness :
    (Tracking.mk 0 ("cat") 1 ⟨0, 0, 1, 1⟩ ("MEDIAN_FLOW") true).objName = "cat" :=
  C10_returned_label (fun _ => 0) TrackingManagerCtor ("cat") ⟨0, 0, 1, 1⟩ 1 ⟨0, 0⟩
    (Tracking.mk 0 ("cat") 1 ⟨0, 0, 1, 1⟩ ("MEDIAN_FLOW") true)
    ((addTracking TrackingManagerCtor ("cat") 1 ⟨0, 0, 1, 1⟩).2) rfl

/-- Wrapping is idempotent across an increment. -/
theorem wrap32_succ (a : Int) : wrap32 (wrap32 a + 1) = wrap32 (a + 1) := by
  unfold wrap32
  omega

/-- After `k` calls of `addTracking` from the constructor state, the counter is
`k` wrapped to 32 bits, whatever the call arguments were. -/
theorem addTrackingSeq_cnt (names : Nat → String) (probs : Nat → ℚ) (rects : Nat → Rect) :
    ∀ k, (addTrackingSeq names probs rects k).tracking_cnt = wrap32 (k : Int) := by
  intro k
  induction k with
  | zero =>
    show (0 : Int) = wrap32 0
    unfold wrap32
    omega
  | succ k ih =>
    show (addTracking (addTrackingSeq names probs rects k) (names k) (probs k)
        (rects k)).2.tracking_cnt = wrap32 ((k : Nat) + 1 : Nat)
    unfold addTracking
    dsimp only
    rw [ih, wrap32_succ]
    push_cast
    rfl

/-- C9 counterexample: the id handed out by the first `addTracking` call equals
the id handed out by call number 2^32 + 1 — the 32-bit counter wraps, so ids
are reused and are not strictly increasing over the manager's lifetime. -/
theorem C9_id_reused :
    idAt cName cProb cRect 0 = idAt cName cProb cRect (2 ^ 32) ∧ (0 : Nat) < 2 ^ 32 := by
  constructor
  · unfold idAt
    rw [addTrackingSeq_cnt, addTrackingSeq_cnt]
    unfold wrap32
    norm_num
  · norm_num

/-- C9 as amended: the ids handed out by successive `addTracking` calls are
strictly increasing — hence unique — as long as the 32-bit counter has not
overflowed, i.e. for the first 2^31 calls from the constructor state; beyond
that the counter wraps modulo 2^32 and ids repeat. -/
theorem C9_ids_increasing (names : Nat → String) (probs : Nat → ℚ)
    (rects : Nat → Rect) (j k : Nat) (hjk : j < k) (hk : k < 2 ^ 31) :
    idAt names probs rects j < idAt names probs rects k := by
  unfold idAt
  rw [addTrackingSeq_cnt, addTrackingSeq_cnt]
  unfold wrap32
  have hj2 : (j : Int) < 2 ^ 31 := by
    have : (j : Int) < (k : Int) := by exact_mod_cast hjk
    have : (k : Int) < 2 ^ 31 := by exact_mod_cast hk
    omega
  have hk2 : (k : Int) < 2 ^ 31 := by exact_mod_cast hk
  have hjk2 : (j : Int) < (k : Int) := by exact_mod_cast hjk
  have hj0 : (0 : Int) ≤ (j : Int) := Int.natCast_nonneg j
  have hk0 : (0 : Int) ≤ (k : Int) := Int.natCast_nonneg k
  omega

/-- Witness for the amended C9: the first two ids are 0 < 1. -/
theorem C9_ids_increasing_witness : idAt cName cProb cRect 0 < idAt cName cProb cRect 1 :=
  C9_ids_increasing cName cProb cRect 0 1 (by norm_num) (by norm_num)

/-- One `track` call keeps the admission window within the capacity of 5 and
keeps the capacity configured. -/
theorem track_step_bound (u : Tracking → sFrame → Tracking) (s : TMState) (f : sFrame)
    (h5 : s.qFrameNumLimit_ = 5) (hb : s.validFrames_.length ≤ 5) :
    (track u s f).validFrames_.length ≤ 5 ∧ (track u s f).qFrameNumLimit_ = 5 := by
  unfold track
  by_cases h1 : s.initialized_ = false
  · rw [if_pos h1]
    exact ⟨hb, h5⟩
  · rw [if_neg h1]
    by_cases h2 : isTrackFrameValid s.validFrames_ f.stamp
    · rw [if_pos h2]
      refine ⟨?_, h5⟩
      dsimp only
      by_cases h3 : (s.validFrames_ ++ [f.stamp]).length > s.qFrameNumLimit_
      · rw [if_pos h3, List.length_tail, List.length_append]
        simp only [List.length_singleton]
        omega
      · rw [if_neg h3]
        omega
    · rw [if_neg h2]
      exact ⟨hb, h5⟩

/-- Popping the front of a non-empty list with an appended element. -/
theorem tail_append_singleton {α : Type} (l : List α) (a : α) (h : l ≠ []) :
    (l ++ [a]).tail = l.tail ++ [a] := by
  cases l with
  | nil => exact absurd rfl h
  | cons x xs => rfl

/-- C8: over any sequence of `track` calls, a manager whose window capacity is
the configured 5 and whose window currently holds at most 5 stamps never
exceeds 5 stamps; and when the window is full and a frame is admitted the
oldest (front) stamp is evicted: the new window is the old one minus its head
plus the new stamp at the back. -/
theorem C8_window_bounded_fifo :
    (∀ (u : Tracking → sFrame → Tracking) (frames : List sFrame) (s : TMState),
        s.qFrameNumLimit_ = 5 → s.validFrames_.length ≤ 5 →
        (frames.foldl (track u) s).validFrames_.length ≤ 5) ∧
      (∀ (u : Tracking → sFrame → Tracking) (s : TMState) (f : sFrame),
        s.qFrameNumLimit_ = 5 → s.validFrames_.length = 5 → s.initialized_ = true →
        isTrackFrameValid s.validFrames_ f.stamp = true →
        (track u s f).validFrames_ = s.validFrames_.tail ++ [f.stamp]) := by
  constructor
  · intro u frames
    induction frames with
    | nil => intro s h5 hb; exact hb
    | cons f fs ih =>
      intro s h5 hb
      rw [List.foldl_cons]
      obtain ⟨hb2, h52⟩ := track_step_bound u s f h5 hb
      exact ih (track u s f) h52 hb2
  · intro u s f h5 hlen hinit hvalid
    unfold track
    rw [if_neg (by rw [hinit]; simp), if_pos hvalid]
    dsimp only
    have hgt : (s.validFrames_ ++ [f.stamp]).length > s.qFrameNumLimit_ := by
      rw [List.length_append, h5]
      simp only [List.length_singleton]
      omega
    rw [if_pos hgt]
    apply tail_append_singleton
    intro h
    rw [h] at hlen
    simp at hlen

/-- Witness for C8: seven frames folded into an initialized manager with a full
window keep the window at 5 entries, and one admitted frame on the full window
evicts the front stamp. -/
theorem C8_window_bounded_fifo_witness :
    (([⟨⟨0, 10⟩⟩, ⟨⟨0, 11⟩⟩, ⟨⟨0, 12⟩⟩, ⟨⟨0, 13⟩⟩, ⟨⟨0, 14⟩⟩, ⟨⟨0, 15⟩⟩, ⟨⟨0, 16⟩⟩] :
        List sFrame).foldl (track updateIdT) stateFullWindow).validFrames_.length ≤ 5 ∧
      (track updateIdT stateFullWindow ⟨⟨0, 9⟩⟩).validFrames_ =
        stateFullWindow.validFrames_.tail ++ [⟨0, 9⟩] :=
  ⟨C8_window_bounded_fifo.1 updateIdT _ stateFullWindow rfl (by norm_num [stateFullWindow]),
    C8_window_bounded_fifo.2 updateIdT stateFullWindow ⟨⟨0, 9⟩⟩ rfl rfl rfl (by rfl)⟩

/-- C6: the gating cost matrix is empty when either input list is empty;
otherwise it has exactly tracks × detections shape, every cell is either the
`INFINITY` sentinel or a squared distance lying in [0, 4], and a cell holds the
sentinel exactly when the track has no trajectory for the stamp or the raw
distance exceeds the 2.0 cutoff (the hypothesis that `mahal` is non-negative
models `cv::Mahalanobis`, which returns a square root). -/
theorem C6_cost_matrix {Cov : Type} (getTraj : Tracking → Timespec → Option (Traj Cov))
    (mahal : ℚ × ℚ → ℚ × ℚ → Cov → ℚ) (covInv : Cov → Cov)
    (dets : List Object) (tracks : List Tracking) (stamp : Timespec)
    (hm : ∀ a b c, 0 ≤ mahal a b c) :
    (dets = [] ∨ tracks = [] →
      calcTrackDetMahaDistance getTraj mahal covInv dets tracks stamp = []) ∧
      (dets ≠ [] → tracks ≠ [] →
        (calcTrackDetMahaDistance getTraj mahal covInv dets tracks stamp).length =
            tracks.length ∧
          ∀ row ∈ calcTrackDetMahaDistance getTraj mahal covInv dets tracks stamp,
            row.length = dets.length) ∧
      (∀ row ∈ calcTrackDetMahaDistance getTraj mahal covInv dets tracks stamp,
        ∀ c ∈ row, c = none ∨ ∃ v, c = some v ∧ 0 ≤ v ∧ v ≤ 4) ∧
      (∀ i j, ∀ hi : i < tracks.length, ∀ hj : j < dets.length,
        ((calcTrackDetMahaDistance getTraj mahal covInv dets tracks stamp).getD i []).getD
            j none =
          match getTraj tracks[i] stamp with
          | none => none
          | some traj =>
            if mahal (rectCentra traj.rect_) (rectCentra dets[j].BoundBox_)
                  (covInv traj.covar_) > 2 then
              none
            else
              some
                (mahal (rectCentra traj.rect_) (rectCentra dets[j].BoundBox_)
                    (covInv traj.covar_) ^ 2)) := by
  refine ⟨?_, ?_, ?_, ?_⟩
  · intro h
    unfold calcTrackDetMahaDistance
    rcases h with h | h <;> rw [if_pos] <;> simp [h]
  · intro hd ht
    unfold calcTrackDetMahaDistance
    rw [if_neg (by simp [hd, ht])]
    refine ⟨List.length_map _ _, ?_⟩
    intro row hrow
    obtain ⟨tr, _, hrow⟩ := List.mem_map.mp hrow
    rw [← hrow]
    cases hT : getTraj tr stamp with
    | none => simp
    | some traj => simp
  · intro row hrow c hc
    unfold calcTrackDetMahaDistance at hrow
    by_cases hempty : dets.length ≤ 0 ∨ tracks.length ≤ 0
    · rw [if_pos hempty] at hrow
      simp at hrow
    · rw [if_neg hempty] at hrow
      obtain ⟨tr, _, hrow⟩ := List.mem_map.mp hrow
      rw [← hrow] at hc
      cases hT : getTraj tr stamp with
      | none =>
        rw [hT] at hc
        exact Or.inl (List.eq_of_mem_replicate hc)
      | some traj =>
        rw [hT] at hc
        dsimp only at hc
        obtain ⟨det, _, hcell⟩ := List.mem_map.mp hc
        by_cases hgate :
            mahal (rectCentra traj.rect_) (rectCentra det.BoundBox_)
                (covInv traj.covar_) > 2
        · rw [if_pos hgate] at hcell
          exact Or.inl hcell.symm
        · rw [if_neg hgate] at hcell
          push_neg at hgate
          refine Or.inr ⟨_, hcell.symm, pow_nonneg (hm _ _ _) 2, ?_⟩
          calc mahal (rectCentra traj.rect_) (rectCentra det.BoundBox_)
                (covInv traj.covar_) ^ 2 ≤ 2 ^ 2 :=
              pow_le_pow_left₀ (hm _ _ _) hgate 2
            _ ≤ 4 := by norm_num
  · intro i j hi hj
    unfold calcTrackDetMahaDistance
    rw [if_neg (by push_neg; omega)]
    rw [getD_of_lt _ i [] (by rw [List.length_map]; exact hi), List.getElem_map]
    cases hT : getTraj tracks[i] stamp with
    | none =>
      rw [getD_of_lt _ j none (by rw [List.length_replicate]; exact hj)]
      simp
    | some traj =>
      dsimp only
      rw [getD_of_lt _ j none (by rw [List.length_map]; exact hj), List.getElem_map]

/-- Witness for C6: the theorem evaluated at concrete inputs — empty detection
list gives the empty matrix, and one track with one detection gives a 1 × 1
matrix. -/
theorem C6_cost_matrix_witness :
    calcTrackDetMahaDistance getTrajUnit mahalOne id [] [trackPerson] ⟨0, 0⟩ = [] ∧
      (calcTrackDetMahaDistance getTrajUnit mahalOne id [detPerson] [trackPerson]
          ⟨0, 0⟩).length = [trackPerson].length :=
  ⟨(C6_cost_matrix getTrajUnit mahalOne id [] [trackPerson] ⟨0, 0⟩
      (fun _ _ _ => by norm_num [mahalOne])).1 (Or.inl rfl),
    ((C6_cost_matrix getTrajUnit mahalOne id [detPerson] [trackPerson] ⟨0, 0⟩
      (fun _ _ _ => by norm_num [mahalOne])).2.1 (by simp) (by simp)).1⟩

/-! List infrastructure for the analysis of the maximum-weight matcher on
all-zero matrices. -/

/-- `getD` on a replicated list. -/
theorem getD_replicate {α : Type} (n j : Nat) (a d : α) :
    (List.replicate n a).getD j d = if j < n then a else d := by
  by_cases h : j < n
  · rw [if_pos h, getD_of_lt _ j d (by rw [List.length_replicate]; exact h)]
    exact List.getElem_replicate a _
  · rw [if_neg h]
    rw [List.getD_eq_getElem?_getD, List.getElem?_eq_none]
    · rfl
    · rw [List.length_replicate]
      omega

/-- `getD` on a mapped range. -/
theorem getD_range_map {β : Type} (f : Nat → β) (n j : Nat) (d : β) :
    ((List.range n).map f).getD j d = if j < n then f j else d := by
  by_cases h : j < n
  · rw [if_pos h,
      getD_of_lt _ j d (by rw [List.length_map, List.length_range]; exact h),
      List.getElem_map, List.getElem_range]
  · rw [if_neg h]
    rw [List.getD_eq_getElem?_getD, List.getElem?_eq_none]
    · rfl
    · rw [List.length_map, List.length_range]
      omega

/-- `set` on a mapped range. -/
theorem set_range_map {β : Type} (f : Nat → β) (n m : Nat) (a : β) :
    ((List.range n).map f).set m a =
      (List.range n).map fun j => if j = m then a else f j := by
  apply List.ext_getElem
  · rw [List.length_set, List.length_map, List.length_map]
  · intro j h1 h2
    rw [List.length_set, List.length_map, List.length_range] at h1
    simp only [List.getElem_set, List.getElem_map, List.getElem_range]
    by_cases hj : m = j
    · have hj2 : j = m := hj.symm
      rw [if_pos hj, if_pos hj2]
    · have hj2 : ¬ j = m := fun hh => hj hh.symm
      rw [if_neg hj, if_neg hj2]

/-- A replicated list as a mapped range. -/
theorem replicate_eq_range_map {β : Type} (n : Nat) (a : β) :
    List.replicate n a = (List.range n).map fun _ => a := by
  apply List.ext_getElem
  · rw [List.length_replicate, List.length_map, List.length_range]
  · intro j h1 h2
    rw [List.getElem_replicate, List.getElem_map]

/-- Splitting the full range at `v`. -/
theorem range_eq_append (v n : Nat) (h : v ≤ n) :
    List.range n = List.range v ++ colsFrom v n := by
  unfold colsFrom
  apply List.ext_getElem
  · rw [List.length_range, List.length_append, List.length_range, List.length_map,
      List.length_range]
    omega
  · intro j h1 h2
    rw [List.length_range] at h1
    rw [List.getElem_range]
    by_cases hj : j < v
    · rw [List.getElem_append_left (by rw [List.length_range]; exact hj),
        List.getElem_range]
    · rw [List.getElem_append_right (by rw [List.length_range]; omega)]
      rw [List.getElem_map, List.getElem_range]
      rw [List.length_range]
      omega

/-- Unfolding the head of `colsFrom`. -/
theorem colsFrom_cons (v n : Nat) (h : v < n) :
    colsFrom v n = v :: colsFrom (v + 1) n := by
  unfold colsFrom
  apply List.ext_getElem
  · rw [List.length_map, List.length_range, List.length_cons, List.length_map,
      List.length_range]
    omega
  · intro j h1 h2
    rw [List.length_map, List.length_range] at h1
    rw [List.getElem_map, List.getElem_range]
    cases j with
    | zero => simp
    | succ m =>
      rw [List.getElem_cons_succ, List.getElem_map, List.getElem_range]
      omega

/-- `colsFrom` is empty at the end of the range. -/
theorem colsFrom_self (n : Nat) : colsFrom n n = [] := by
  unfold colsFrom
  rw [Nat.sub_self]
  rfl

/-- `colsFrom 0` is the full range. -/
theorem colsFrom_zero (n : Nat) : colsFrom 0 n = List.range n := by
  unfold colsFrom
  rw [Nat.sub_zero]
  apply List.ext_getElem
  · rw [List.length_map]
  · intro j h1 h2
    simp only [List.getElem_map, List.getElem_range]
    omega

/-- Entries of the visit mask below the bound are set. -/
theorem visitUpto_getD_lt (m n j : Nat) (hj : j < m) (hn : j < n) :
    (visitUpto m n).getD j false = true := by
  unfold visitUpto
  rw [getD_range_map, if_pos hn]
  simp [hj]

/-- Entries of the visit mask at or above the bound are clear. -/
theorem visitUpto_getD_ge (m n j : Nat) (hj : m ≤ j) :
    (visitUpto m n).getD j false = false := by
  unfold visitUpto
  rw [getD_range_map]
  by_cases hn : j < n
  · rw [if_pos hn]
    simp
    omega
  · rw [if_neg hn]

/-- Setting the next entry extends the visit mask by one. -/
theorem visitUpto_set (m n : Nat) (h : m < n) :
    (visitUpto m n).set m true = visitUpto (m + 1) n := by
  unfold visitUpto
  rw [set_range_map]
  apply List.map_congr_left
  intro j hj
  rw [List.mem_range] at hj
  by_cases hjm : j = m
  · rw [if_pos hjm]
    simp [hjm]
  · rw [if_neg hjm]
    by_cases h1 : j < m
    · simp [h1]
      omega
    · have h2 : ¬ j < m + 1 := by omega
      simp [h1, h2]

/-- The fresh visit mask is the empty visit mask. -/
theorem replicate_false_eq (n : Nat) : List.replicate n false = visitUpto 0 n := by
  unfold visitUpto
  rw [replicate_eq_range_map]
  apply List.map_congr_left
  intro j _
  simp

/-- The initial match array is the zero-row mask. -/
theorem zmask_zero (n : Nat) : List.replicate n (-1 : Int) = zmask 0 n := by
  unfold zmask
  rw [replicate_eq_range_map]
  apply List.map_congr_left
  intro j _
  simp

/-- Matched entries of `zmask`. -/
theorem zmask_getD_lt (i n j : Nat) (hj : j < i) (hn : j < n) :
    (zmask i n).getD j (-1) = (i : Int) - 1 - j := by
  unfold zmask
  rw [getD_range_map, if_pos hn, if_pos hj]

/-- Unmatched entries of `zmask`. -/
theorem zmask_getD_ge (i n j : Nat) (hj : i ≤ j) :
    (zmask i n).getD j (-1) = -1 := by
  unfold zmask
  rw [getD_range_map]
  by_cases hn : j < n
  · rw [if_pos hn, if_neg (by omega)]
  · rw [if_neg hn]

/-- Completing the augmenting pass: taking the free column `i` for row 0 turns
the partial rewrite into `zstep i 0 n`. -/
theorem zmask_set_last (i n : Nat) (hn : i < n) :
    (zmask i n).set i ((0 : Nat) : Int) = zstep i 0 n := by
  unfold zmask zstep
  rw [set_range_map]
  apply List.map_congr_left
  intro j hj
  rw [List.mem_range] at hj
  split_ifs <;> omega

/-- Reassigning column `i - (k+1)` to row `k+1` extends the rewritten suffix by
one column. -/
theorem zstep_set (i k n : Nat) (hk : k + 1 ≤ i) (hn : i < n) :
    (zstep i k n).set (i - (k + 1)) (((k + 1 : Nat)) : Int) = zstep i (k + 1) n := by
  unfold zstep
  rw [set_range_map]
  apply List.map_congr_left
  intro j hj
  rw [List.mem_range] at hj
  split_ifs <;> omega

/-- The fully rewritten suffix for row `i` is the mask for `i + 1` rows. -/
theorem zstep_self (i n : Nat) : zstep i i n = zmask (i + 1) n := by
  unfold zstep zmask
  apply List.map_congr_left
  intro j hj
  rw [List.mem_range] at hj
  split_ifs <;> omega

/-- The final mask in closed form. -/
theorem zmask_full (n : Nat) :
    zmask n n = (List.range n).map fun j : Nat => (n : Int) - 1 - (j : Int) := by
  unfold zmask
  apply List.map_congr_left
  intro j hj
  rw [List.mem_range] at hj
  rw [if_pos hj]

/-- Reading any entry of the zero vector gives 0. -/
theorem zeroVec_getD (n j : Nat) : (zeroVec n).getD j 0 = 0 := by
  unfold zeroVec
  rw [getD_replicate]
  split_ifs <;> rfl

/-- Reading any cell of the zero matrix gives 0. -/
theorem corrZ_getD (n r c : Nat) : ((corrZ n).getD r []).getD c 0 = 0 := by
  unfold corrZ
  rw [getD_replicate]
  split_ifs with h
  · rw [getD_replicate]
    split_ifs <;> rfl
  · rfl

/-- The column loop ignores a visited prefix of the column list. -/
theorem searchCols_skip (C : List (List ℚ)) (S T : List ℚ)
    (recurse : Nat → SearchState → Option (Bool × SearchState)) (srcId : Nat) :
    ∀ (pre rest : List Nat) (st : SearchState),
      (∀ j ∈ pre, st.tgtVisit.getD j false = true) →
      searchCols C S T recurse srcId (pre ++ rest) st =
        searchCols C S T recurse srcId rest st := by
  intro pre
  induction pre with
  | nil =>
    intro rest st _
    rfl
  | cons j pre ih =>
    intro rest st hv
    rw [List.cons_append]
    simp only [searchCols]
    rw [if_pos (hv j (List.mem_cons_self j pre))]
    exact ih rest st fun j2 hj2 => hv j2 (List.mem_cons_of_mem j hj2)

/-- The augmenting search of `searchMatch` on the all-zero matrix with the
state reached after rows `0..i-1` were processed: called on row `k ≤ i` with
the columns below `i - k` already visited, it succeeds, visits columns up to
`i`, reassigns columns `i-k..i` to rows `k..0` (closed form `zstep`), marks
rows `k..0` visited, and leaves `col_gap` untouched. -/
theorem searchMatch_zero (k : Nat) :
    ∀ (i n fuel : Nat) (sv : List Bool) (wd : List (Option ℚ)),
      k ≤ i → i < n → k + 1 ≤ fuel →
      searchMatch (corrZ n) (zeroVec n) (zeroVec n) fuel k
          ⟨sv, visitUpto (i - k) n, zmask i n, wd⟩ =
        some (true, ⟨markDown k sv, visitUpto (i + 1) n, zstep i k n, wd⟩) := by
  induction k with
  | zero =>
    intro i n fuel sv wd hk hi hf
    obtain ⟨f, rfl⟩ : ∃ f, fuel = f + 1 := ⟨fuel - 1, by omega⟩
    simp only [searchMatch, Nat.sub_zero]
    have hlen : (zeroVec n).length = n := by
      rw [zeroVec, List.length_replicate]
    rw [hlen]
    rw [range_eq_append i n (le_of_lt hi)]
    rw [searchCols_skip _ _ _ _ _ _ _ _
      (fun j hj =>
        visitUpto_getD_lt i n j (List.mem_range.mp hj)
          (lt_trans (List.mem_range.mp hj) hi))]
    rw [colsFrom_cons i n hi]
    simp only [searchCols]
    rw [visitUpto_getD_ge i n i (le_refl i)]
    rw [if_neg (by simp)]
    rw [zeroVec_getD, zeroVec_getD, corrZ_getD]
    rw [if_pos (show (0 : ℚ) + 0 - 0 ≤ 1 / 10000 by norm_num)]
    rw [if_pos rfl]
    rw [zmask_getD_ge i n i (le_refl i)]
    rw [if_pos rfl]
    rw [visitUpto_set i n hi, zmask_set_last i n hi]
    rfl
  | succ k ih =>
    intro i n fuel sv wd hk hi hf
    obtain ⟨f, rfl⟩ : ∃ f, fuel = f + 1 := ⟨fuel - 1, by omega⟩
    simp only [searchMatch]
    have hlen : (zeroVec n).length = n := by
      rw [zeroVec, List.length_replicate]
    rw [hlen]
    rw [range_eq_append (i - (k + 1)) n (by omega)]
    rw [searchCols_skip _ _ _ _ _ _ _ _
      (fun j hj =>
        visitUpto_getD_lt (i - (k + 1)) n j (List.mem_range.mp hj)
          (by have := List.mem_range.mp hj; omega))]
    rw [colsFrom_cons (i - (k + 1)) n (by omega)]
    simp only [searchCols]
    rw [visitUpto_getD_ge (i - (k + 1)) n (i - (k + 1)) (le_refl _)]
    rw [if_neg (by simp)]
    rw [zeroVec_getD, zeroVec_getD, corrZ_getD]
    rw [if_pos (show (0 : ℚ) + 0 - 0 ≤ 1 / 10000 by norm_num)]
    rw [if_pos rfl]
    have hidx : (zmask i n).getD (i - (k + 1)) (-1) = ((k : Nat) : Int) := by
      rw [zmask_getD_lt i n (i - (k + 1)) (by omega) (by omega)]
      omega
    rw [hidx]
    rw [if_neg (by omega)]
    rw [visitUpto_set (i - (k + 1)) n (by omega)]
    have hsub : i - (k + 1) + 1 = i - k := by omega
    rw [hsub]
    rw [Int.toNat_natCast]
    rw [ih i n f (sv.set (k + 1) true) wd (by omega) hi (by omega)]
    dsimp only
    rw [zstep_set i k n (by omega) hi]
    rfl

/-- One retry-loop pass on the all-zero matrix: the very first search for row
`i` succeeds, so the labels are untouched and the match array advances from
`zmask i n` to `zmask (i+1) n`. -/
theorem huntWhile_zero_step (n w i : Nat) (hi : i < n) :
    huntWhile (corrZ n) n (w + 1) i (zeroVec n) (zeroVec n) (zmask i n)
        (List.replicate n (none : Option ℚ)) =
      some (zeroVec n, zeroVec n, zmask (i + 1) n) := by
  simp only [huntWhile]
  have hs :=
    searchMatch_zero i i n (n + 1) (List.replicate n false)
      (List.replicate n (none : Option ℚ)) (le_refl i) hi (by omega)
  rw [Nat.sub_self, ← replicate_false_eq] at hs
  rw [hs]
  dsimp only
  rw [zstep_self]

/-- The row loop on the all-zero matrix: processing the remaining rows
`i, …, n-1` starting from the mask for `i` processed rows produces the full
mask. -/
theorem huntRows_zero (n : Nat) :
    ∀ d i, i + d = n →
      huntRows (corrZ n) n (colsFrom i n) (zeroVec n) (zeroVec n) (zmask i n) =
        some (zmask n n) := by
  intro d
  induction d with
  | zero =>
    intro i hi
    have hin : i = n := by omega
    subst hin
    rw [colsFrom_self]
    rfl
  | succ d ih =>
    intro i hi
    have hilt : i < n := by omega
    rw [colsFrom_cons i n hilt]
    simp only [huntRows]
    rw [show n * n + 2 = (n * n + 1) + 1 from rfl]
    rw [huntWhile_zero_step n (n * n + 1) i hilt]
    dsimp only
    exact ih (i + 1) (by omega)

/-- The row-label initialisation fold of `matchTrackDetWithProb` on an all-zero
row stays at 0. -/
theorem foldl_rowmax_zero (n : Nat) :
    (List.replicate n (0 : ℚ)).foldl
        (fun row_max v => if row_max ≤ v then v else row_max) 0 = 0 := by
  induction n with
  | zero => rfl
  | succ m ih =>
    rw [List.replicate_succ, List.foldl_cons, if_pos (le_refl (0 : ℚ))]
    exact ih

/-- Closed form of the maximum-weight matcher on the all-zero `n × n` matrix:
every column `j` ends up matched to row `n - 1 - j`. -/
theorem matchProb_zero (n : Nat) :
    matchTrackDetWithProb (List.replicate n (List.replicate n (0 : ℚ))) n =
      some ((List.range n).map fun j : Nat => (n : Int) - 1 - (j : Int)) := by
  have hcols : ((List.replicate n (List.replicate n (0 : ℚ))).headD []).length = n := by
    cases n with
    | zero => rfl
    | succ m => rw [List.replicate_succ, List.headD_cons, List.length_replicate]
  simp only [matchTrackDetWithProb, List.length_replicate, hcols, Nat.max_self]
  have hcorr :
      ((List.range n).map fun i =>
          (List.range n).map fun j =>
            ((List.replicate n (List.replicate n (0 : ℚ))).getD i []).getD j 0) =
        corrZ n := by
    apply List.ext_getElem
    · rw [List.length_map, List.length_range, corrZ, List.length_replicate]
    · intro i h1 h2
      rw [List.length_map, List.length_range] at h1
      rw [List.getElem_map, List.getElem_range]
      unfold corrZ
      rw [List.getElem_replicate]
      apply List.ext_getElem
      · rw [List.length_map, List.length_range, List.length_replicate]
      · intro j hj1 hj2
        rw [List.length_map, List.length_range] at hj1
        rw [List.getElem_map, List.getElem_range, List.getElem_replicate]
        rw [getD_replicate, if_pos h1, getD_replicate, if_pos hj1]
  rw [hcorr]
  have hrow :
      ((List.range n).map fun i =>
          ((corrZ n).getD i []).foldl
            (fun row_max v => if row_max ≤ v then v else row_max) 0) =
        zeroVec n := by
    apply List.ext_getElem
    · rw [List.length_map, List.length_range, zeroVec, List.length_replicate]
    · intro i h1 h2
      rw [List.length_map, List.length_range] at h1
      rw [List.getElem_map, List.getElem_range]
      unfold zeroVec
      rw [List.getElem_replicate]
      unfold corrZ
      rw [getD_replicate, if_pos h1]
      exact foldl_rowmax_zero n
  rw [hrow]
  rw [show List.replicate n (0 : ℚ) = zeroVec n from rfl]
  rw [zmask_zero]
  have hrun :
      huntRows (corrZ n) n (List.range n) (zeroVec n) (zeroVec n) (zmask 0 n) =
        some (zmask n n) := by
    rw [← colsFrom_zero]
    exact huntRows_zero n n 0 (by omega)
  rw [hrun]
  dsimp only
  rw [List.take_of_length_le
    (le_of_eq (by unfold zmask; rw [List.length_map, List.length_range]))]
  rw [zmask_full]

/-- C5 counterexample: on the 1×1 all-zero weight matrix the matcher outputs
`[0]` (column 0 matched to row 0), not `[-1]` — the zero-weight pair lies in
the equality subgraph (`0 + 0 = 0`), so the very first augmenting search takes
it, contradicting the claim that the match array stays at −1. -/
theorem C5_zero_matrix_spurious_match :
    matchTrackDetWithProb [[(0 : ℚ)]] 1 = some [0] ∧
      some [(0 : Int)] ≠ some [(-1 : Int)] := by
  constructor
  · have h := matchProb_zero 1
    rw [show List.replicate 1 (List.replicate 1 (0 : ℚ)) = [[(0 : ℚ)]] from rfl] at h
    rw [h]
    rfl
  · simp

/-- C5 as amended: on an `n × n` all-zero weight matrix the matcher produces a
complete matching instead of leaving everything unmatched — the output match
array assigns column `j` to row `n − 1 − j`, and (for `n ≥ 1`) no entry is −1. -/
theorem C5_zero_matrix_complete_matching (n : Nat) :
    matchTrackDetWithProb (List.replicate n (List.replicate n (0 : ℚ))) n =
        some ((List.range n).map fun j : Nat => (n : Int) - 1 - (j : Int)) ∧
      ∀ x ∈ (List.range n).map fun j : Nat => (n : Int) - 1 - (j : Int), x ≠ -1 := by
  refine ⟨matchProb_zero n, ?_⟩
  intro x hx
  obtain ⟨j, hj, rfl⟩ := List.mem_map.mp hx
  rw [List.mem_range] at hj
  omega

end tracker
